import Mathlib

/-!
Verification development for the `ann-music-note` library.

The definitions below are a shallow embedding of the note-construction
pipeline of the repository: `src/theory.ts` (constant tables, the
note-name regular expression, the invalid sentinel `EmptyNote`),
`src/methods.ts` (primitive converters, validators, `simplify`,
`enharmonic`, `NoteDistance`) and `src/properties.ts` (the `Note`
constructor with its `fromName` / `fromMidi` / `fromFrequency` paths).

Modelling conventions:
- JavaScript numbers that the code treats as integers are `ℤ`;
  constructor inputs (which may be fractional) are `ℚ`; the stored
  `frequency` field and the logarithm/power arithmetic are over `ℝ`.
- JavaScript `%` (truncated remainder) is `Int.tmod`; `Math.floor(a / b)`
  for the positive literal divisor 12 is Lean's `Int` division `/`
  (Euclidean division, which agrees with floor division for a positive
  divisor).
- Absent (`undefined`) constructor fields are `Option.none`.
- Out-of-range JavaScript array indexing, which yields `undefined` and
  stringifies to "undefined", is modelled by `jsNth`.
- The helpers of the external `ann-music-base` package (`either`,
  `isNegative`, `capitalize`, `substitute`, `tokenize`, `CustomError`)
  are modelled from their documented contracts: `either a b c` selects
  `a` when `c` holds; `CustomError`'s note error returns the supplied
  sentinel record without throwing; `tokenize` applies the note-name
  regular expression `NOTE_REGEX` and returns its named capture groups
  (empty strings for absent groups).
-/

/-- Character class `[0-9]` of the regular expression. -/
def isDigitCh (c : Char) : Bool := '0' ≤ c && c ≤ '9'

/-- Character class `[a-gA-G]` of `NOTE_REGEX` (the note letter, case-insensitive). -/
def isNoteLetter (c : Char) : Bool := ('a' ≤ c && c ≤ 'g') || ('A' ≤ c && c ≤ 'G')

/-- JavaScript `\s` (whitespace), restricted to the ASCII range plus the
unicode line separators; the inputs of this development are ASCII. -/
def isSpaceCh (c : Char) : Bool :=
  c = ' ' || c = '\t' || c = '\n' || c = '\r' || c = '\x0b' || c = '\x0c' ||
  c = '\u2028' || c = '\u2029'

/-- Line terminators, which JavaScript `.` does not match. -/
def isLineTerm (c : Char) : Bool := c = '\n' || c = '\r' || c = '\u2028' || c = '\u2029'

/-- Decimal digit character for a digit value below 10. -/
def digitCh (d : ℕ) : Char :=
  match d with
  | 0 => '0' | 1 => '1' | 2 => '2' | 3 => '3' | 4 => '4'
  | 5 => '5' | 6 => '6' | 7 => '7' | 8 => '8' | _ => '9'

/-- Fuel-driven decimal rendering of a natural number, most significant
digit first. The fuel only serves structural recursion; `natToStr`
supplies enough of it. -/
def natToStrAux : ℕ → ℕ → List Char
  | 0, _ => []
  | fuel + 1, n => if n < 10 then [digitCh n] else natToStrAux fuel (n / 10) ++ [digitCh (n % 10)]

/-- Decimal rendering of a natural number (the JavaScript number-to-string
conversion for a nonnegative integer). -/
def natToStr (n : ℕ) : List Char := natToStrAux (n + 1) n

/-- Decimal rendering of an integer (the JavaScript template interpolation
of an integer-valued number, as in the template strings of `fromName`,
`fromMidi` and `simplify`). -/
def intToStr (o : ℤ) : List Char := if o < 0 then '-' :: natToStr o.natAbs else natToStr o.toNat

/-- String form of `intToStr`. -/
def intToStrS (o : ℤ) : String := ⟨intToStr o⟩

/-- Numeric value of a list of decimal digit characters. -/
def digitsVal (l : List Char) : ℕ := l.foldl (fun a c => 10 * a + (c.toNat - 48)) 0

/-- JavaScript `Number.parseInt(s, 10)` on the strings the octave capture
group can produce (an optional minus sign followed by decimal digits):
`none` models the `NaN` result when no digits are present. -/
def parseSignedDigits (l : List Char) : Option ℤ :=
  match l with
  | '-' :: rest =>
    let ds := rest.takeWhile isDigitCh
    if ds.isEmpty then none else some (-(digitsVal ds : ℤ))
  | _ =>
    let ds := l.takeWhile isDigitCh
    if ds.isEmpty then none else some ((digitsVal ds : ℤ))

/-- Named capture groups of `NOTE_REGEX`
`^(?<Tletter>[a-gA-G])(?<Taccidental>#{1,}|b{1,}|x{1,}|)(?<Toct>-?\d*)(?<Tduration>(\/(1|2|4|8|16|32|64))?)\s*(?<Trest>.*)$`. -/
structure NoteTokens where
  Tletter : String
  Taccidental : String
  Toct : String
  Tduration : String
  Trest : String
deriving DecidableEq

/-- The accidental group `#{1,}|b{1,}|x{1,}|`: a maximal run of the first
character when it is `#`, `b` or `x` (the ordered alternation never mixes
the three), otherwise empty. Returns the group and the unconsumed rest. -/
def accRun (l : List Char) : List Char × List Char :=
  match l with
  | [] => ([], [])
  | c :: _ =>
    if c = '#' || c = 'b' || c = 'x' then (l.takeWhile (· == c), l.dropWhile (· == c))
    else ([], l)

/-- The octave group `-?\d*`: greedy optional minus sign followed by a
greedy digit run. -/
def octTok (l : List Char) : List Char × List Char :=
  match l with
  | '-' :: rest => ('-' :: rest.takeWhile isDigitCh, rest.dropWhile isDigitCh)
  | _ => (l.takeWhile isDigitCh, l.dropWhile isDigitCh)

/-- The duration group `(\/(1|2|4|8|16|32|64))?`. The alternation is
ordered and the regex tail `\s*.*$` never forces backtracking, so `/1`
shadows `/16`, `/2` shadows, for example, the first character of `/256`,
and `32`, `64` are only reachable through their full two characters. -/
def durTok (l : List Char) : List Char × List Char :=
  match l with
  | '/' :: '1' :: r => (['/', '1'], r)
  | '/' :: '2' :: r => (['/', '2'], r)
  | '/' :: '4' :: r => (['/', '4'], r)
  | '/' :: '8' :: r => (['/', '8'], r)
  | '/' :: '3' :: '2' :: r => (['/', '3', '2'], r)
  | '/' :: '6' :: '4' :: r => (['/', '6', '4'], r)
  | _ => ([], l)

/-- Matching `NOTE_REGEX` against a string: `none` when the expression
does not match (first character is not a note letter, or a line
terminator survives into the `Trest` group, which `.` cannot consume),
otherwise the five named capture groups. -/
def tokenize (s : String) : Option NoteTokens :=
  match s.data with
  | [] => none
  | c :: rest =>
    if isNoteLetter c then
      let acc := accRun rest
      let oct := octTok acc.2
      let dur := durTok oct.2
      let tr := dur.2.dropWhile isSpaceCh
      if tr.any isLineTerm then none
      else some ⟨⟨[c]⟩, ⟨acc.1⟩, ⟨oct.1⟩, ⟨dur.1⟩, ⟨tr⟩⟩
    else none

/-- Boolean selector of `ann-music-base`: `either(a, b, condition)`
returns `a` if the condition holds, else `b`. -/
def either {α : Type} (a b : α) (c : Bool) : α := if c then a else b

/-- Relation helper of `ann-music-base`. -/
def isNegative (x : ℤ) : Bool := x < 0

/-- String helper of `ann-music-base`: case-normalize the (first) letter. -/
def capitalize (s : String) : String :=
  match s.data with
  | [] => ⟨[]⟩
  | c :: rest => ⟨Char.toUpper c :: rest⟩

/-- The call `substitute(Taccidental, /x/g, '##')` of `fromName`: expand
every legacy double-sharp shorthand character `x` to two `#`. -/
def substX (s : String) : String :=
  ⟨(s.data.map (fun c => if c = 'x' then ['#', '#'] else [c])).flatten⟩

/-- JavaScript `charCodeAt(0)`; the guarded callers only use it on
nonempty strings. -/
def headCode (s : String) : ℕ :=
  match s.data with
  | [] => 0
  | c :: _ => c.toNat

/-- Theory table: standard tuning frequency of A4. -/
def A_440 : ℝ := 440

/-- Theory table: MIDI key of A4. -/
def A4_KEY : ℤ := 69

/-- Theory table: all pitch classes in standard use, the split of
`"C C# Db D D# Eb E F F# Gb G G# Ab A A# Bb B"` in `theory.ts`. -/
def ALL_NOTES : List String :=
  ["C", "C#", "Db", "D", "D#", "Eb", "E", "F", "F#", "Gb", "G", "G#", "Ab",
    "A", "A#", "Bb", "B"]

/-- Extraction of note types from `ALL_NOTES` in `theory.ts`:
`ALL_NOTES.filter(note => acc.indexOf(note[1] || " ") >= 0)` — keep the
entries whose second character (a space when absent) occurs in `acc`. -/
def notes (acc : String) : List String :=
  ALL_NOTES.filter (fun note => acc.data.contains (note.data.getD 1 ' '))

/-- Theory table: the 12 pitch classes with `#` used for black keys. -/
def SHARPS : List String := notes "# "

/-- Theory table: the 12 pitch classes with `b` used for black keys. -/
def FLATS : List String := notes "b "

/-- Theory table: indexes of the white keys in a 12-note octave. -/
def WHITE_KEYS : List ℤ := [0, 2, 4, 5, 7, 9, 11]

/-- The note record of `types.ts`, fields in source order. -/
structure NoteProps where
  name : String
  letter : String
  step : ℕ
  octave : ℤ
  accidental : String
  alteration : ℤ
  pc : String
  chroma : ℤ
  midi : ℤ
  frequency : ℝ
  color : String
  valid : Bool

/-- The invalid sentinel record of `theory.ts`. -/
def EmptyNote : NoteProps :=
  { name := "", letter := "C", step := 0, octave := -1, accidental := "",
    alteration := 0, pc := "", chroma := 0, midi := -1, frequency := -1,
    color := "", valid := false }

/-- JavaScript `Array.prototype.indexOf`: position of the first occurrence
or `-1`. -/
def jsIndexOf (xs : List String) (s : String) : ℤ :=
  match xs with
  | [] => -1
  | y :: ys => if y = s then 0 else (let r := jsIndexOf ys s; if r = -1 then -1 else r + 1)

/-- JavaScript array indexing with an integer index: out-of-range access
yields `undefined`, which template interpolation renders as "undefined". -/
def jsNth (xs : List String) (i : ℤ) : String :=
  if h : 0 ≤ i ∧ i.toNat < xs.length then xs.get ⟨i.toNat, h.2⟩ else "undefined"

/-- Converter `Midi.toFrequency` of `methods.ts`:
`2 ** ((midi - A4_KEY) / 12) * tuning` (default tuning `A_440`). -/
noncomputable def Midi.toFrequency (midi : ℤ) (tuning : ℝ) : ℝ :=
  2 ^ ((((midi : ℝ)) - (A4_KEY : ℝ)) / 12) * tuning

/-- Converter `Midi.toOctaves` of `methods.ts`: `Math.floor(midi / 12)`.
Note that the source has no `- 1` here. -/
def Midi.toOctaves (midi : ℤ) : ℤ := midi / 12

/-- Converter `Frequency.toMidi` of `methods.ts`:
`Math.ceil(12 * Math.log2(f / tuning) + A4_KEY)`. -/
noncomputable def Frequency.toMidi (f tuning : ℝ) : ℤ :=
  ⌈12 * Real.logb 2 (f / tuning) + (A4_KEY : ℝ)⌉

/-- Converter `Accidental.toAlteration` of `methods.ts`:
`accidental.length * (accidental[0] === 'b' ? -1 : 1)`. -/
def Accidental.toAlteration (accidental : String) : ℤ :=
  (accidental.length : ℤ) * (if accidental.data.head? = some 'b' then -1 else 1)

/-- Converter `Letter.toIndex` of `methods.ts`: `SHARPS.indexOf(letter)`. -/
def Letter.toIndex (letter : String) : ℤ := jsIndexOf SHARPS letter

/-- Converter `Letter.toStep` of `methods.ts`: `(letter.charCodeAt(0) + 3) % 7`. -/
def Letter.toStep (letter : String) : ℕ := (headCode letter + 3) % 7

/-- Converter `Octave.parse` of `methods.ts`:
`either(parseInt(octave), 4, isInteger(parseInt(octave)))` — the parsed
octave digits, or the standard octave 4 when parsing yields `NaN`. -/
def Octave.parse (octave : String) : ℤ := (parseSignedDigits octave.data).getD 4

/-- Converter `Octave.toSemitones` of `methods.ts`: `12 * inc(octave)`. -/
def Octave.toSemitones (octave : ℤ) : ℤ := 12 * (octave + 1)

/-- Validator `isName` of `methods.ts`: `REGEX.test(name) === true`; an
absent field (`undefined`) stringifies without matching the expression. -/
def Validators.isName (name : Option String) : Bool :=
  match name with
  | none => false
  | some s => (tokenize s).isSome

/-- Validator `isMidi` of `methods.ts`: an integer inside `[0, 135]`. -/
def Validators.isMidi (midi : Option ℚ) : Bool :=
  match midi with
  | none => false
  | some q => q.den == 1 && decide (0 ≤ q) && decide (q ≤ 135)

/-- Validator `isFrequency` of `methods.ts`: a positive number. -/
def Validators.isFrequency (freq : Option ℚ) : Bool :=
  match freq with
  | none => false
  | some q => decide (0 < q)

/-- Predicate `Chroma.isWhite` of `methods.ts`. -/
def Chroma.isWhite (chroma : ℤ) : Bool := WHITE_KEYS.contains chroma

/-- Constructor input `NoteInit` of `types.ts`; absent fields are `none`,
`sharps` defaults to `true` and `tuning` to 440. -/
structure NoteInit where
  name : Option String := none
  midi : Option ℚ := none
  frequency : Option ℚ := none
  sharps : Bool := true
  tuning : ℚ := 440

/-- The `fromName` path of the `Note` constructor in `properties.ts`.
A failed regex match gives all-empty capture groups in the source, so the
`none` case of `tokenize` lands in the same `NoteError(...) = EmptyNote`
branch that the guard `if (Trest || !Tletter)` selects. -/
noncomputable def fromName (note : String) : NoteProps :=
  match tokenize note with
  | none => EmptyNote
  | some t =>
    if t.Trest ≠ "" ∨ t.Tletter = "" then EmptyNote
    else
      let letter := capitalize t.Tletter
      let step := Letter.toStep letter
      let accidental := substX t.Taccidental
      let alteration := Accidental.toAlteration accidental
      let offset := Letter.toIndex letter
      let semitonesAltered := offset + alteration
      let octavesAltered := semitonesAltered / 12
      let octave := Octave.parse t.Toct + octavesAltered
      let pc := letter ++ accidental
      let chroma :=
        either (Int.tmod (semitonesAltered - Octave.toSemitones octavesAltered + 12) 12)
          (Int.tmod semitonesAltered 12) (isNegative octavesAltered)
      let midi := Octave.toSemitones octave + chroma
      let frequency := Midi.toFrequency midi A_440
      let name := pc ++ intToStrS octave
      let color := if Chroma.isWhite chroma then "white" else "black"
      { name := name, letter := letter, step := step, octave := octave,
        accidental := accidental, alteration := alteration, pc := pc,
        chroma := chroma, midi := midi, frequency := frequency,
        color := color, valid := true }

/-- The `fromMidi` path of the `Note` constructor in `properties.ts`. -/
noncomputable def fromMidi (midi : ℤ) (useSharps : Bool) : NoteProps :=
  let octave := Midi.toOctaves midi
  let chroma := Int.tmod midi 12
  let pc := either (jsNth SHARPS chroma) (jsNth FLATS chroma) useSharps
  let name := pc ++ intToStrS octave
  fromName name

/-- The `fromFrequency` path of the `Note` constructor in `properties.ts`. -/
noncomputable def fromFrequency (frequency : ℝ) (useSharps : Bool) (tuning : ℝ) : NoteProps :=
  let midi := Frequency.toMidi frequency tuning
  fromMidi midi useSharps

/-- The `Note` constructor of `properties.ts`: dispatch over the three
validated input forms, falling back to the invalid sentinel. In the midi
branch the validator guarantees an integer, whose value is its rational
numerator. -/
noncomputable def Note (init : NoteInit) : NoteProps :=
  if Validators.isName init.name then fromName (init.name.getD "")
  else if Validators.isMidi init.midi then fromMidi (init.midi.getD 0).num init.sharps
  else if Validators.isFrequency init.frequency then
    fromFrequency ((init.frequency.getD 0 : ℚ) : ℝ) init.sharps ((init.tuning : ℚ) : ℝ)
  else EmptyNote

/-- The `simplify` operation of `methods.ts`. The `if (!note)` guard of
the source never fires (the constructor always returns a record), so it
is not modelled. -/
noncomputable def simplify (name : String) (keepAccidental : Bool) : String :=
  let note := Note { name := some name }
  let isSharp : Bool := decide (0 < note.alteration)
  let useSharps := isSharp == keepAccidental
  let pc := either (jsNth SHARPS note.chroma) (jsNth FLATS note.chroma) useSharps
  pc ++ intToStrS note.octave

/-- The `enharmonic` operation of `methods.ts`: `simplify(note, false)`. -/
noncomputable def enharmonic (note : String) : String := simplify note false

/-- The comparable properties accepted by `NoteDistance` and `NoteCompare`. -/
inductive NoteComparableProp
  | midi | frequency | chroma | octave

/-- Dynamic field access `note[compare]` for a comparable property; every
such field is a JavaScript number, modelled in `ℝ`. -/
noncomputable def getComparable (n : NoteProps) : NoteComparableProp → ℝ
  | NoteComparableProp.midi => (n.midi : ℝ)
  | NoteComparableProp.frequency => n.frequency
  | NoteComparableProp.chroma => (n.chroma : ℝ)
  | NoteComparableProp.octave => (n.octave : ℝ)

/-- The `NoteDistance` operation of `methods.ts`: builds both operands
through the constructor and returns `o[compare] - n[compare]`. -/
noncomputable def NoteDistance (note other : NoteInit) (compare : NoteComparableProp) : ℝ :=
  getComparable (Note other) compare - getComparable (Note note) compare

/-- Letter index of a single letter character, `Letter.toIndex` applied
to the one-character string. -/
def letterIdx (L : Char) : ℤ := Letter.toIndex ⟨[L]⟩

/-- Alteration value of an accidental run of `k` copies of `a`. -/
def altValue (a : Char) (k : ℕ) : ℤ := if a = 'b' then -(k : ℤ) else (k : ℤ)

/-- Canonical rendered note name: uppercase letter, a run of `k` copies
of the accidental character `a`, and the decimal octave. -/
def renderName (L a : Char) (k : ℕ) (o : ℤ) : String :=
  ⟨L :: (List.replicate k a ++ intToStr o)⟩

/-- Table selector used to describe `simplify`'s output: the sharp table
when the flag holds, else the flat table. -/
def eTable (b : Bool) (c : ℤ) : String :=
  either (jsNth SHARPS c) (jsNth FLATS c) b

/-! ## Basic facts about strings, digits and decimal rendering -/

/-- Two strings with the same character data are equal. -/
theorem strEq (x y : String) (h : x.data = y.data) : x = y := by
  cases x; cases y; exact congrArg String.mk h

/-- Data of an appended string. -/
theorem strData_append (x y : String) : (x ++ y).data = x.data ++ y.data := by
  cases x; cases y; rfl

/-- Digit characters are digit characters. -/
theorem digitCh_isDigit (d : ℕ) (h : d < 10) : isDigitCh (digitCh d) = true := by
  interval_cases d <;> decide

/-- Code of a digit character. -/
theorem digitCh_toNat (d : ℕ) (h : d < 10) : (digitCh d).toNat = 48 + d := by
  interval_cases d <;> decide

/-- A digit character is not a sign or accidental character. -/
theorem isDigitCh_excl {c : Char} (h : isDigitCh c = true) :
    c ≠ '-' ∧ c ≠ '#' ∧ c ≠ 'b' ∧ c ≠ 'x' := by
  refine ⟨fun hc => ?_, fun hc => ?_, fun hc => ?_, fun hc => ?_⟩ <;>
    (subst hc; exact absurd h (by decide))

/-- Every character the fuelled renderer emits is a digit. -/
theorem natToStrAux_digits :
    ∀ fuel n, n < fuel → ∀ c ∈ natToStrAux fuel n, isDigitCh c = true := by
  intro fuel
  induction fuel with
  | zero => intro n h; omega
  | succ f ih =>
    intro n h c hc
    rw [natToStrAux] at hc
    by_cases h10 : n < 10
    · rw [if_pos h10] at hc
      simp only [List.mem_singleton] at hc
      subst hc
      exact digitCh_isDigit n h10
    · rw [if_neg h10] at hc
      rcases List.mem_append.mp hc with h1 | h2
      · exact ih (n / 10) (by omega) c h1
      · simp only [List.mem_singleton] at h2
        subst h2
        exact digitCh_isDigit (n % 10) (by omega)

/-- The fuelled renderer emits at least one character. -/
theorem natToStrAux_ne_nil (fuel n : ℕ) (h : n < fuel) : natToStrAux fuel n ≠ [] := by
  cases fuel with
  | zero => omega
  | succ f =>
    rw [natToStrAux]
    by_cases h10 : n < 10
    · rw [if_pos h10]; simp
    · rw [if_neg h10]; simp

/-- Every character of a rendered natural number is a digit. -/
theorem natToStr_digits (n : ℕ) : ∀ c ∈ natToStr n, isDigitCh c = true :=
  natToStrAux_digits (n + 1) n (by omega)

/-- A rendered natural number is nonempty. -/
theorem natToStr_ne_nil (n : ℕ) : natToStr n ≠ [] :=
  natToStrAux_ne_nil (n + 1) n (by omega)

/-- Folding the digit-value step over the fuelled rendering recovers the
number, shifted by the accumulator. -/
theorem foldl_natToStrAux :
    ∀ fuel n a, n < fuel →
      List.foldl (fun acc c => 10 * acc + (c.toNat - 48)) a (natToStrAux fuel n) =
        a * 10 ^ (natToStrAux fuel n).length + n := by
  intro fuel
  induction fuel with
  | zero => intro n a h; omega
  | succ f ih =>
    intro n a h
    rw [natToStrAux]
    by_cases h10 : n < 10
    · rw [if_pos h10]
      simp only [List.foldl_cons, List.foldl_nil, List.length_singleton]
      rw [digitCh_toNat n h10]
      omega
    · rw [if_neg h10]
      rw [List.foldl_append, List.length_append]
      rw [ih (n / 10) a (by omega)]
      simp only [List.foldl_cons, List.foldl_nil, List.length_singleton]
      rw [digitCh_toNat (n % 10) (by omega)]
      have hmod : 48 + n % 10 - 48 = n % 10 := by omega
      rw [hmod]
      rw [pow_succ]
      have hdm : 10 * (n / 10) + n % 10 = n := Nat.div_add_mod n 10
      ring_nf
      omega

/-- The digit value of a rendered natural number is the number itself. -/
theorem digitsVal_natToStr (n : ℕ) : digitsVal (natToStr n) = n := by
  unfold digitsVal natToStr
  rw [foldl_natToStrAux (n + 1) n 0 (by omega)]
  simp

/-- A take of everything. -/
theorem takeWhile_all {p : Char → Bool} :
    ∀ {l : List Char}, (∀ c ∈ l, p c = true) → l.takeWhile p = l := by
  intro l
  induction l with
  | nil => intro _; rfl
  | cons c t ih =>
    intro h
    rw [List.takeWhile_cons_of_pos (h c (List.mem_cons_self c t))]
    rw [ih (fun d hd => h d (List.mem_cons_of_mem c hd))]

/-- A drop of everything. -/
theorem dropWhile_all {p : Char → Bool} :
    ∀ {l : List Char}, (∀ c ∈ l, p c = true) → l.dropWhile p = [] := by
  intro l
  induction l with
  | nil => intro _; rfl
  | cons c t ih =>
    intro h
    rw [List.dropWhile_cons_of_pos (h c (List.mem_cons_self c t))]
    exact ih (fun d hd => h d (List.mem_cons_of_mem c hd))

/-- Taking a run of a repeated character stops exactly at a rest whose
head differs from it. -/
theorem takeWhile_replicate_append (a : Char) (k : ℕ) (rest : List Char)
    (h : ∀ c, rest.head? = some c → (c == a) = false) :
    (List.replicate k a ++ rest).takeWhile (· == a) = List.replicate k a := by
  induction k with
  | zero =>
    simp only [List.replicate, List.nil_append]
    cases rest with
    | nil => rfl
    | cons c t => exact List.takeWhile_cons_of_neg (by simp [h c rfl])
  | succ m ih =>
    rw [List.replicate_succ, List.cons_append]
    rw [List.takeWhile_cons_of_pos (by simp)]
    rw [ih]

/-- Dropping a run of a repeated character uncovers exactly the rest. -/
theorem dropWhile_replicate_append (a : Char) (k : ℕ) (rest : List Char)
    (h : ∀ c, rest.head? = some c → (c == a) = false) :
    (List.replicate k a ++ rest).dropWhile (· == a) = rest := by
  induction k with
  | zero =>
    simp only [List.replicate, List.nil_append]
    cases rest with
    | nil => rfl
    | cons c t => exact List.dropWhile_cons_of_neg (by simp [h c rfl])
  | succ m ih =>
    rw [List.replicate_succ, List.cons_append]
    rw [List.dropWhile_cons_of_pos (by simp)]
    rw [ih]

/-- The rendering of an integer is nonempty and starts with a minus sign
or a digit. -/
theorem intToStr_head (o : ℤ) :
    ∃ c t, intToStr o = c :: t ∧ (c = '-' ∨ isDigitCh c = true) := by
  unfold intToStr
  by_cases ho : o < 0
  · rw [if_pos ho]
    exact ⟨'-', natToStr o.natAbs, rfl, Or.inl rfl⟩
  · rw [if_neg ho]
    rcases hl : natToStr o.toNat with _ | ⟨c, t⟩
    · exact absurd hl (natToStr_ne_nil o.toNat)
    · refine ⟨c, t, rfl, Or.inr ?_⟩
      exact natToStr_digits o.toNat c (by rw [hl]; exact List.mem_cons_self c t)

/-- The octave group consumes an entire rendered integer. -/
theorem octTok_intToStr (o : ℤ) : octTok (intToStr o) = (intToStr o, []) := by
  unfold intToStr
  by_cases ho : o < 0
  · rw [if_pos ho]
    show ('-' :: (natToStr o.natAbs).takeWhile isDigitCh,
      (natToStr o.natAbs).dropWhile isDigitCh) = ('-' :: natToStr o.natAbs, [])
    rw [takeWhile_all (natToStr_digits o.natAbs), dropWhile_all (natToStr_digits o.natAbs)]
  · rw [if_neg ho]
    rcases hl : natToStr o.toNat with _ | ⟨c, t⟩
    · exact absurd hl (natToStr_ne_nil o.toNat)
    · have hc : isDigitCh c = true :=
        natToStr_digits o.toNat c (by rw [hl]; exact List.mem_cons_self c t)
      have hcd : c ≠ '-' := (isDigitCh_excl hc).1
      unfold octTok
      split
      · rename_i heq
        rw [List.cons.injEq] at heq
        exact absurd heq.1 hcd
      · rw [← hl, takeWhile_all (natToStr_digits o.toNat),
          dropWhile_all (natToStr_digits o.toNat)]

/-- Parsing a rendered integer recovers it. -/
theorem parseSignedDigits_intToStr (o : ℤ) : parseSignedDigits (intToStr o) = some o := by
  unfold intToStr
  by_cases ho : o < 0
  · rw [if_pos ho]
    unfold parseSignedDigits
    simp only [takeWhile_all (natToStr_digits o.natAbs)]
    rw [if_neg (by simpa [List.isEmpty_iff] using natToStr_ne_nil o.natAbs)]
    rw [digitsVal_natToStr]
    congr 1
    omega
  · rw [if_neg ho]
    rcases hl : natToStr o.toNat with _ | ⟨c, t⟩
    · exact absurd hl (natToStr_ne_nil o.toNat)
    · have hc : isDigitCh c = true :=
        natToStr_digits o.toNat c (by rw [hl]; exact List.mem_cons_self c t)
      have hcd : c ≠ '-' := (isDigitCh_excl hc).1
      unfold parseSignedDigits
      split
      · rename_i heq
        rw [List.cons.injEq] at heq
        exact absurd heq.1 hcd
      · rename_i hne
        rw [← hl]
        simp only [takeWhile_all (natToStr_digits o.toNat)]
        rw [if_neg (by simpa [List.isEmpty_iff] using natToStr_ne_nil o.toNat)]
        rw [digitsVal_natToStr]
        congr 1
        omega

/-- The octave converter recovers a rendered integer octave. -/
theorem octave_parse_intToStr (o : ℤ) : Octave.parse (intToStrS o) = o := by
  unfold Octave.parse intToStrS
  rw [show (⟨intToStr o⟩ : String).data = intToStr o from rfl]
  rw [parseSignedDigits_intToStr]
  rfl

/-! ## The tokenizer on canonically rendered names -/

/-- The accidental group consumes exactly a homogeneous `#` or `b` run
placed in front of a rendered octave. -/
theorem accRun_replicate (a : Char) (ha : a = '#' ∨ a = 'b') (k : ℕ) (o : ℤ) :
    accRun (List.replicate k a ++ intToStr o) = (List.replicate k a, intToStr o) := by
  obtain ⟨c, t, hct, hc⟩ := intToStr_head o
  have hhead : ∀ d, (intToStr o).head? = some d → (d == a) = false := by
    intro d hd
    rw [hct] at hd
    simp only [List.head?_cons, Option.some.injEq] at hd
    subst hd
    rcases hc with hc | hc
    · subst hc; rcases ha with ha | ha <;> (subst ha; decide)
    · have := isDigitCh_excl hc
      rcases ha with ha | ha <;> (subst ha; simp [this.2.1, this.2.2.1])
  cases k with
  | zero =>
    simp only [List.replicate, List.nil_append]
    unfold accRun
    rw [hct]
    have hcn : (c = '#' || c = 'b' || c = 'x') = false := by
      rcases hc with hc | hc
      · subst hc; decide
      · have := isDigitCh_excl hc
        simp [this.2.1, this.2.2.1, this.2.2.2]
    split
    · rename_i heq
      exact absurd heq (by simp)
    · rename_i c0 l0 heq
      rw [List.cons.injEq] at heq
      obtain ⟨rfl, rfl⟩ := heq
      rw [if_neg (by simpa using hcn)]
  | succ m =>
    rw [List.replicate_succ, List.cons_append]
    unfold accRun
    split
    · rename_i heq
      exact absurd heq (by simp)
    · rename_i c0 l0 heq
      rw [List.cons.injEq] at heq
      obtain ⟨rfl, rfl⟩ := heq
      rw [if_pos (by rcases ha with ha | ha <;> (subst ha; simp))]
      rw [← List.cons_append, ← List.replicate_succ]
      rw [takeWhile_replicate_append a (m + 1) (intToStr o) hhead,
        dropWhile_replicate_append a (m + 1) (intToStr o) hhead]

/-- Tokenizing a canonically rendered name yields exactly the letter, the
accidental run and the octave digits, with empty duration and rest. -/
theorem tokenize_render (L a : Char) (k : ℕ) (o : ℤ)
    (hL : isNoteLetter L = true) (ha : a = '#' ∨ a = 'b') :
    tokenize (renderName L a k o) =
      some ⟨⟨[L]⟩, ⟨List.replicate k a⟩, ⟨intToStr o⟩, "", ""⟩ := by
  unfold tokenize renderName
  show (match L :: (List.replicate k a ++ intToStr o) with
    | [] => none
    | c :: rest => _) = _
  simp only
  rw [if_pos hL]
  rw [accRun_replicate a ha k o]
  simp only
  rw [octTok_intToStr]
  simp only [durTok, List.dropWhile_nil, List.any_nil]
  rfl

/-! ## Field computations of `fromName` on rendered names -/

/-- Capitalizing an uppercase note letter changes nothing. -/
theorem capitalize_upper (L : Char)
    (hL : L ∈ (['A', 'B', 'C', 'D', 'E', 'F', 'G'] : List Char)) :
    capitalize ⟨[L]⟩ = ⟨[L]⟩ := by
  fin_cases hL <;> rfl

/-- An uppercase note letter is a note letter. -/
theorem isNoteLetter_upper (L : Char)
    (hL : L ∈ (['A', 'B', 'C', 'D', 'E', 'F', 'G'] : List Char)) :
    isNoteLetter L = true := by
  fin_cases hL <;> decide

/-- The double-sharp expansion leaves a homogeneous `#` or `b` run alone. -/
theorem substX_replicate (a : Char) (ha : a = '#' ∨ a = 'b') (k : ℕ) :
    substX ⟨List.replicate k a⟩ = ⟨List.replicate k a⟩ := by
  apply strEq
  show (List.map _ (List.replicate k a)).flatten = List.replicate k a
  have hax : a ≠ 'x' := by rcases ha with ha | ha <;> (subst ha; decide)
  rw [List.map_replicate, if_neg hax]
  induction k with
  | zero => rfl
  | succ m ih => rw [List.replicate_succ, List.replicate_succ, List.flatten_cons, ih]; rfl

/-- Alteration of a homogeneous accidental run. -/
theorem toAlteration_replicate (a : Char) (ha : a = '#' ∨ a = 'b') (k : ℕ) :
    Accidental.toAlteration ⟨List.replicate k a⟩ = altValue a k := by
  unfold Accidental.toAlteration altValue
  cases k with
  | zero => simp
  | succ m =>
    have hlen : (⟨List.replicate (m + 1) a⟩ : String).length = m + 1 := by
      show (List.replicate (m + 1) a).length = m + 1
      rw [List.length_replicate]
    have hhd : (⟨List.replicate (m + 1) a⟩ : String).data.head? = some a := by
      show (List.replicate (m + 1) a).head? = some a
      rw [List.replicate_succ]
      rfl
    rw [hlen, hhd]
    rcases ha with ha | ha
    · subst ha
      rw [if_neg (by simp), if_neg (by decide)]
      omega
    · subst ha
      rw [if_pos rfl, if_pos rfl]
      omega

/-- The `either` chroma expression of `fromName` is the mathematical
residue modulo 12 of the altered semitone position. -/
theorem chroma_formula (s : ℤ) :
    either (Int.tmod (s - Octave.toSemitones (s / 12) + 12) 12)
      (Int.tmod s 12) (isNegative (s / 12)) = s % 12 := by
  unfold either isNegative Octave.toSemitones
  by_cases h : s / 12 < 0
  · rw [if_pos (by simpa using h)]
    have harg : s - 12 * (s / 12 + 1) + 12 = s % 12 := by
      rw [Int.emod_def]
      ring
    rw [harg]
    rw [Int.tmod_eq_emod (Int.emod_nonneg s (by norm_num)) (by norm_num)]
    rw [Int.emod_emod_of_dvd s (dvd_refl 12)]
  · rw [if_neg (by simpa using h)]
    have hs : 0 ≤ s := by
      by_contra hneg
      exact h (Int.ediv_neg' (by omega) (by norm_num))
    exact Int.tmod_eq_emod hs (by norm_num)

/-- Octave bookkeeping: a nonnegative altered position below 12 stays in
its written octave. -/
theorem carry_zero {s : ℤ} (h0 : 0 ≤ s) (h12 : s < 12) : s / 12 = 0 :=
  Int.ediv_eq_zero_of_lt h0 h12

/-- Full characterization of `fromName` on a canonically rendered name:
every field of the record in terms of letter index, alteration and
octave carry. -/
theorem note_render (L a : Char) (k : ℕ) (o : ℤ)
    (hL : L ∈ (['A', 'B', 'C', 'D', 'E', 'F', 'G'] : List Char))
    (ha : a = '#' ∨ a = 'b') :
    fromName (renderName L a k o) =
      { name := ⟨[L]⟩ ++ ⟨List.replicate k a⟩ ++
          intToStrS (o + (letterIdx L + altValue a k) / 12),
        letter := ⟨[L]⟩,
        step := Letter.toStep ⟨[L]⟩,
        octave := o + (letterIdx L + altValue a k) / 12,
        accidental := ⟨List.replicate k a⟩,
        alteration := altValue a k,
        pc := ⟨[L]⟩ ++ ⟨List.replicate k a⟩,
        chroma := (letterIdx L + altValue a k) % 12,
        midi := Octave.toSemitones (o + (letterIdx L + altValue a k) / 12) +
          (letterIdx L + altValue a k) % 12,
        frequency := Midi.toFrequency
          (Octave.toSemitones (o + (letterIdx L + altValue a k) / 12) +
            (letterIdx L + altValue a k) % 12) A_440,
        color := if Chroma.isWhite ((letterIdx L + altValue a k) % 12) then "white" else "black",
        valid := true } := by
  have htok := tokenize_render L a k o (isNoteLetter_upper L hL) ha
  have hguard : ¬((("" : String) ≠ "") ∨ ((⟨[L]⟩ : String) = "")) := by
    rintro (h | h)
    · exact h rfl
    · exact absurd (congrArg String.data h) (by simp)
  unfold fromName
  rw [htok]
  split
  · rename_i heq
    exact absurd heq (by simp)
  · rename_i t heq
    rw [Option.some.injEq] at heq
    subst heq
    dsimp only
    rw [if_neg hguard]
    simp only [capitalize_upper L hL, substX_replicate a ha k, toAlteration_replicate a ha k,
      letterIdx, chroma_formula]
    rw [show Octave.parse ⟨intToStr o⟩ = o from octave_parse_intToStr o]

/-- Constructing from a rendered name goes through the `fromName` path. -/
theorem note_of_render (L a : Char) (k : ℕ) (o : ℤ)
    (hL : L ∈ (['A', 'B', 'C', 'D', 'E', 'F', 'G'] : List Char))
    (ha : a = '#' ∨ a = 'b') :
    Note { name := some (renderName L a k o) } = fromName (renderName L a k o) := by
  unfold Note
  rw [if_pos (by
    show Validators.isName (some (renderName L a k o)) = true
    show (tokenize (renderName L a k o)).isSome = true
    rw [tokenize_render L a k o (isNoteLetter_upper L hL) ha]
    rfl)]
  rfl

/-! ## Structure of the constructor output -/

/-- A `fromName` result is either the sentinel or a valid record whose
chroma is the residue of its letter index plus its alteration. -/
theorem fromName_structure (s : String) :
    fromName s = EmptyNote ∨
      ((fromName s).valid = true ∧
        (fromName s).chroma =
          (Letter.toIndex (fromName s).letter + (fromName s).alteration) % 12) := by
  unfold fromName
  cases htok : tokenize s with
  | none => exact Or.inl rfl
  | some t =>
    dsimp only
    by_cases hg : t.Trest ≠ "" ∨ t.Tletter = ""
    · rw [if_pos hg]
      exact Or.inl rfl
    · rw [if_neg hg]
      refine Or.inr ⟨rfl, ?_⟩
      dsimp only
      rw [chroma_formula]

/-- The constructor either goes through `fromName` or returns the
sentinel directly. -/
theorem note_structure (init : NoteInit) :
    (∃ s, Note init = fromName s) ∨ Note init = EmptyNote := by
  unfold Note
  by_cases h1 : Validators.isName init.name = true
  · rw [if_pos h1]
    exact Or.inl ⟨_, rfl⟩
  · rw [if_neg h1]
    by_cases h2 : Validators.isMidi init.midi = true
    · rw [if_pos h2]
      exact Or.inl ⟨_, rfl⟩
    · rw [if_neg h2]
      by_cases h3 : Validators.isFrequency init.frequency = true
      · rw [if_pos h3]
        exact Or.inl ⟨_, rfl⟩
      · rw [if_neg h3]
        exact Or.inr rfl

/-- Every invalid constructor output is the sentinel record itself. -/
theorem note_invalid_eq (init : NoteInit) (h : (Note init).valid = false) :
    Note init = EmptyNote := by
  rcases note_structure init with ⟨s, hs⟩ | he
  · rw [hs] at h ⊢
    rcases fromName_structure s with he | ⟨hv, _⟩
    · exact he
    · rw [hv] at h
      cases h
  · exact he

/-- Every valid constructor output satisfies the chroma identity over its
own letter and alteration fields. -/
theorem note_valid_chroma (init : NoteInit) (h : (Note init).valid = true) :
    (Note init).chroma =
      (Letter.toIndex (Note init).letter + (Note init).alteration) % 12 := by
  rcases note_structure init with ⟨s, hs⟩ | he
  · rw [hs] at h ⊢
    rcases fromName_structure s with he | ⟨_, hc⟩
    · rw [he] at h
      cases h
    · exact hc
  · rw [he] at h
    cases h

/-- A valid name-built note comes from the `fromName` path. -/
theorem note_name_of_valid (s : String)
    (h : (Note { name := some s }).valid = true) :
    Note { name := some s } = fromName s := by
  unfold Note at h ⊢
  by_cases h1 : Validators.isName (({ name := some s } : NoteInit).name) = true
  · rw [if_pos h1] at h ⊢
    rfl
  · rw [if_neg h1] at h ⊢
    have h2 : Validators.isMidi (({ name := some s } : NoteInit).midi) = false := rfl
    have h3 : Validators.isFrequency (({ name := some s } : NoteInit).frequency) = false := rfl
    rw [if_neg (by rw [h2]; exact Bool.false_ne_true)] at h ⊢
    rw [if_neg (by rw [h3]; exact Bool.false_ne_true)] at h ⊢
    cases h

/-! ## Claim theorems -/

/-- Claim C1 (code bug evidence): the spec and the repository's own test
demand `toOctaves(69) = 4` (that is, `floor(midi/12) - 1`) and a midi
round trip, but `Midi.toOctaves` in `methods.ts` lacks the `- 1`:
`toOctaves 69 = 5`, so `Note({midi: 60})` renders the name "C5" with
octave field 5 and its midi field comes back as 72, not 60. -/
theorem claim_C1_divergence :
    Midi.toOctaves 69 = 5 ∧
    (Note { midi := some 60 }).octave = 5 ∧
    (Note { midi := some 60 }).name = "C5" ∧
    (Note { midi := some 60 }).midi = 72 :=
  ⟨rfl, rfl, rfl, rfl⟩

/-- Claim C2: the note built from "Cb4" carries the accidental into the
octave below: octave 3, midi 59 (one semitone below C4's 60), and the
same chroma 11 as the note built from "B3" (whose midi is also 59). -/
theorem claim_C2_octave_carry :
    (Note { name := some "Cb4" }).octave = 3 ∧
    (Note { name := some "Cb4" }).midi = 59 ∧
    (Note { name := some "Cb4" }).chroma = 11 ∧
    (Note { name := some "B3" }).chroma = 11 ∧
    (Note { name := some "B3" }).midi = 59 :=
  ⟨rfl, rfl, rfl, rfl, rfl⟩

/-- Claim C3: for any constructor input whose name fails the grammar (or
is absent), whose midi fails the integer range check (or is absent) and
whose frequency fails the positivity check (or is absent), the
constructor returns the invalid sentinel record with `valid = false` and
an empty name; the embedding is a total function, so no exception is
possible. -/
theorem claim_C3_invalid_sentinel (init : NoteInit)
    (h1 : Validators.isName init.name = false)
    (h2 : Validators.isMidi init.midi = false)
    (h3 : Validators.isFrequency init.frequency = false) :
    Note init = EmptyNote ∧ (Note init).valid = false ∧ (Note init).name = "" := by
  have he : Note init = EmptyNote := by
    unfold Note
    rw [if_neg (by rw [h1]; exact Bool.false_ne_true)]
    rw [if_neg (by rw [h2]; exact Bool.false_ne_true)]
    rw [if_neg (by rw [h3]; exact Bool.false_ne_true)]
  exact ⟨he, by rw [he]; rfl, by rw [he]; rfl⟩

/-- Witness for claim C3 at the spec's own examples: the name "H4", the
midi 200 and the frequency -5 all fail their validators, and the
constructor on that input returns the sentinel. -/
theorem claim_C3_witness :
    Validators.isName (some "H4") = false ∧
    Validators.isMidi (some 200) = false ∧
    Validators.isFrequency (some (-5)) = false ∧
    (Note { name := some "H4", midi := some 200, frequency := some (-5) } = EmptyNote ∧
      (Note { name := some "H4", midi := some 200, frequency := some (-5) }).valid = false ∧
      (Note { name := some "H4", midi := some 200, frequency := some (-5) }).name = "") :=
  ⟨rfl, rfl, rfl,
    claim_C3_invalid_sentinel { name := some "H4", midi := some 200, frequency := some (-5) }
      rfl rfl rfl⟩

/-- Claim C4 (code bug evidence): the spec demands
`frequency = tuning * 2^((midi - 69)/12)` and `Note({midi: 69}).frequency
= 440` exactly; the code stores 880 instead, because `fromMidi` renders
the octave without the `- 1` (so the record's midi becomes 81) and
`fromName` always calls `toFrequency` with the default tuning 440,
ignoring the `tuning` parameter (a tuning of 880 changes nothing). -/
theorem claim_C4_frequency_divergence :
    (Note { midi := some 69 }).midi = 81 ∧
    (Note { midi := some 69 }).frequency = 880 ∧
    (Note { midi := some 69, tuning := 880 }).frequency = 880 := by
  refine ⟨rfl, ?_, ?_⟩ <;>
  · have h : Midi.toFrequency 81 A_440 = 880 := by
      unfold Midi.toFrequency A_440 A4_KEY
      rw [show ((81 : ℤ) : ℝ) - ((69 : ℤ) : ℝ) = 12 by norm_num]
      rw [show (12 : ℝ) / 12 = 1 by norm_num]
      rw [Real.rpow_one]
      norm_num
    exact Eq.trans rfl h

/-- Claim C5: a canonically rendered name (uppercase letter, homogeneous
accidental run, decimal octave) whose accidental causes no octave carry
round-trips through the constructor: the rebuilt record's name field is
the input string. -/
theorem claim_C5_name_roundtrip (L a : Char) (k : ℕ) (o : ℤ)
    (hL : L ∈ (['A', 'B', 'C', 'D', 'E', 'F', 'G'] : List Char))
    (ha : a = '#' ∨ a = 'b')
    (hcarry : (letterIdx L + altValue a k) / 12 = 0) :
    (Note { name := some (renderName L a k o) }).name = renderName L a k o := by
  rw [note_of_render L a k o hL ha, note_render L a k o hL ha]
  dsimp only
  rw [hcarry, add_zero]
  apply strEq
  rw [strData_append, strData_append]
  show ([L] ++ List.replicate k a) ++ intToStr o = L :: (List.replicate k a ++ intToStr o)
  simp

/-- Witness for claim C5 at the rendered name "C#4": the hypotheses hold
and the constructor returns the same name. -/
theorem claim_C5_witness :
    ('C' ∈ (['A', 'B', 'C', 'D', 'E', 'F', 'G'] : List Char)) ∧
    (letterIdx 'C' + altValue '#' 1) / 12 = 0 ∧
    (Note { name := some (renderName 'C' '#' 1 4) }).name = renderName 'C' '#' 1 4 :=
  ⟨by decide, by decide,
    claim_C5_name_roundtrip 'C' '#' 1 4 (by decide) (Or.inl rfl) (by decide)⟩

/-- Claim C6: every valid record, whichever construction path produced
it, has a chroma in [0, 11] equal to the mathematically non-negative
residue `((letter-index + alteration) mod 12 + 12) mod 12` of its own
letter and alteration fields. -/
theorem claim_C6_chroma_range (init : NoteInit) (h : (Note init).valid = true) :
    0 ≤ (Note init).chroma ∧ (Note init).chroma ≤ 11 ∧
    (Note init).chroma =
      ((Letter.toIndex (Note init).letter + (Note init).alteration) % 12 + 12) % 12 := by
  have hc := note_valid_chroma init h
  have h0 : 0 ≤ (Note init).chroma := by
    rw [hc]
    exact Int.emod_nonneg _ (by norm_num)
  have h1 : (Note init).chroma ≤ 11 := by
    rw [hc]
    have := Int.emod_lt_of_pos
      (Letter.toIndex (Note init).letter + (Note init).alteration)
      (show (0 : ℤ) < 12 by norm_num)
    omega
  refine ⟨h0, h1, ?_⟩
  rw [hc]
  omega

/-- Witness for claim C6 at the valid note "Cb4". -/
theorem claim_C6_witness :
    (Note { name := some "Cb4" }).valid = true ∧
    (0 ≤ (Note { name := some "Cb4" }).chroma ∧
      (Note { name := some "Cb4" }).chroma ≤ 11 ∧
      (Note { name := some "Cb4" }).chroma =
        ((Letter.toIndex (Note { name := some "Cb4" }).letter +
          (Note { name := some "Cb4" }).alteration) % 12 + 12) % 12) :=
  ⟨rfl, claim_C6_chroma_range { name := some "Cb4" } rfl⟩

/-- Claim C7: `Frequency.toMidi` is the ceiling (round-up) of
`12 * log2(f / tuning) + 69`, so the frequency exactly half a semitone
below key k's center maps to k, the higher of the two neighbouring keys;
and `fromFrequency` delegates the computed key to `fromMidi`. -/
theorem claim_C7_ceiling_rounding (k : ℤ) (t : ℝ) (ht : 0 < t) :
    Frequency.toMidi (t * (2 : ℝ) ^ ((((k : ℝ) - 69) - 1 / 2) / 12)) t = k ∧
    (∀ f : ℝ, Frequency.toMidi f t = ⌈12 * Real.logb 2 (f / t) + 69⌉) ∧
    (∀ (f : ℝ) (useSharps : Bool),
      fromFrequency f useSharps t = fromMidi (Frequency.toMidi f t) useSharps) := by
  refine ⟨?_, fun f => by unfold Frequency.toMidi A4_KEY; norm_num, fun f u => rfl⟩
  unfold Frequency.toMidi A4_KEY
  rw [mul_comm t _, mul_div_assoc, div_self (ne_of_gt ht), mul_one]
  rw [Real.logb_rpow (by norm_num) (by norm_num)]
  rw [show (12 : ℝ) * ((((k : ℝ) - 69) - 1 / 2) / 12) + (((69 : ℤ) : ℝ)) = (-(1 / 2) : ℝ) + k by
    push_cast; ring]
  rw [Int.ceil_add_int]
  norm_num

/-- Witness for claim C7 at key 69 and tuning 440. -/
theorem claim_C7_witness :
    (0 : ℝ) < 440 ∧
    Frequency.toMidi (440 * (2 : ℝ) ^ ((((69 : ℤ) : ℝ) - 69 - 1 / 2) / 12)) 440 = 69 :=
  ⟨by norm_num, (claim_C7_ceiling_rounding 69 440 (by norm_num)).1⟩

/-- Claim C8 counterexample: "C4/8" is a letter-accidental-octave prefix
followed by the two additional characters "/8", yet the constructor
accepts it (the regex consumes a duration token), contradicting the claim
that any trailing characters yield the invalid sentinel. -/
theorem claim_C8_counterexample :
    (Note { name := some "C4/8" }).valid = true ∧
    (Note { name := some "C4/8" }).name = "C4" ∧
    Note { name := some "C4/8" } ≠ EmptyNote :=
  ⟨rfl, rfl, fun h => Bool.noConfusion (show true = false from congrArg NoteProps.valid h)⟩

/-- Claim C8 amended: trailing input invalidates the note exactly when
the tokenizer leaves it in the `Trest` group; a trailing duration token
and trailing whitespace are consumed by the expression and do not
invalidate. Whenever tokenization leaves a nonempty rest, the constructor
returns the sentinel. -/
theorem claim_C8_amended (init : NoteInit) (s : String) (t : NoteTokens)
    (hname : init.name = some s) (htok : tokenize s = some t) (hrest : t.Trest ≠ "") :
    Note init = EmptyNote := by
  have hfn : fromName s = EmptyNote := by
    unfold fromName
    rw [htok]
    dsimp only
    rw [if_pos (Or.inl hrest)]
  unfold Note
  rw [hname]
  rw [if_pos (by
    show Validators.isName (some s) = true
    show (tokenize s).isSome = true
    rw [htok]
    rfl)]
  exact hfn

/-- Witness for claim C8's amended statement at the input "C4x". -/
theorem claim_C8_amended_witness :
    tokenize "C4x" = some ⟨"C", "", "4", "", "x"⟩ ∧
    (⟨"C", "", "4", "", "x"⟩ : NoteTokens).Trest ≠ "" ∧
    Note { name := some "C4x" } = EmptyNote :=
  ⟨rfl, by decide,
    claim_C8_amended { name := some "C4x" } "C4x" ⟨"C", "", "4", "", "x"⟩ rfl rfl (by decide)⟩

/-! ## Enharmonic respelling machinery -/

/-- The enharmonic respelling of any name is a pitch-class-table entry at
the note's chroma, concatenated with the note's rendered octave. -/
theorem simplify_form (s : String) :
    enharmonic s =
      eTable (decide (0 < (Note { name := some s }).alteration) == false)
        (Note { name := some s }).chroma ++
        intToStrS (Note { name := some s }).octave := rfl

/-- Splitting off a rendered octave from a one-letter-plus-run prefix. -/
theorem render_concat (L a : Char) (k : ℕ) (o : ℤ) :
    (⟨L :: List.replicate k a⟩ : String) ++ intToStrS o = renderName L a k o := by
  apply strEq
  rw [strData_append]
  show (L :: List.replicate k a) ++ intToStr o = L :: (List.replicate k a ++ intToStr o)
  simp

/-- Fields of a rendered name whose altered position needs no carry. -/
theorem table_case (L a : Char) (k : ℕ) (o : ℤ)
    (hL : L ∈ (['A', 'B', 'C', 'D', 'E', 'F', 'G'] : List Char))
    (ha : a = '#' ∨ a = 'b')
    (hr0 : 0 ≤ letterIdx L + altValue a k) (hr11 : letterIdx L + altValue a k ≤ 11) :
    (Note { name := some (renderName L a k o) }).valid = true ∧
    (Note { name := some (renderName L a k o) }).chroma = letterIdx L + altValue a k ∧
    (Note { name := some (renderName L a k o) }).octave = o ∧
    (Note { name := some (renderName L a k o) }).alteration = altValue a k := by
  rw [note_of_render L a k o hL ha, note_render L a k o hL ha]
  have hc : (letterIdx L + altValue a k) % 12 = letterIdx L + altValue a k :=
    Int.emod_eq_of_lt hr0 (by omega)
  have hz : (letterIdx L + altValue a k) / 12 = 0 := carry_zero hr0 (by omega)
  dsimp only
  rw [hc, hz, add_zero]
  exact ⟨rfl, rfl, rfl, rfl⟩

/-- Every pitch-class-table entry is a rendered-name prefix whose letter
index plus alteration is exactly its chroma. -/
theorem eTable_shape (b : Bool) (c : ℤ) (h0 : 0 ≤ c) (h11 : c ≤ 11) :
    ∃ L a k, L ∈ (['A', 'B', 'C', 'D', 'E', 'F', 'G'] : List Char) ∧
      (a = '#' ∨ a = 'b') ∧
      (∀ o : ℤ, eTable b c ++ intToStrS o = renderName L a k o) ∧
      letterIdx L + altValue a k = c := by
  interval_cases c <;> cases b <;>
    first
      | exact ⟨'C', '#', 0, by decide, Or.inl rfl, fun o => render_concat 'C' '#' 0 o, by decide⟩
      | exact ⟨'C', '#', 1, by decide, Or.inl rfl, fun o => render_concat 'C' '#' 1 o, by decide⟩
      | exact ⟨'D', 'b', 1, by decide, Or.inr rfl, fun o => render_concat 'D' 'b' 1 o, by decide⟩
      | exact ⟨'D', '#', 0, by decide, Or.inl rfl, fun o => render_concat 'D' '#' 0 o, by decide⟩
      | exact ⟨'D', '#', 1, by decide, Or.inl rfl, fun o => render_concat 'D' '#' 1 o, by decide⟩
      | exact ⟨'E', 'b', 1, by decide, Or.inr rfl, fun o => render_concat 'E' 'b' 1 o, by decide⟩
      | exact ⟨'E', '#', 0, by decide, Or.inl rfl, fun o => render_concat 'E' '#' 0 o, by decide⟩
      | exact ⟨'F', '#', 0, by decide, Or.inl rfl, fun o => render_concat 'F' '#' 0 o, by decide⟩
      | exact ⟨'F', '#', 1, by decide, Or.inl rfl, fun o => render_concat 'F' '#' 1 o, by decide⟩
      | exact ⟨'G', 'b', 1, by decide, Or.inr rfl, fun o => render_concat 'G' 'b' 1 o, by decide⟩
      | exact ⟨'G', '#', 0, by decide, Or.inl rfl, fun o => render_concat 'G' '#' 0 o, by decide⟩
      | exact ⟨'G', '#', 1, by decide, Or.inl rfl, fun o => render_concat 'G' '#' 1 o, by decide⟩
      | exact ⟨'A', 'b', 1, by decide, Or.inr rfl, fun o => render_concat 'A' 'b' 1 o, by decide⟩
      | exact ⟨'A', '#', 0, by decide, Or.inl rfl, fun o => render_concat 'A' '#' 0 o, by decide⟩
      | exact ⟨'A', '#', 1, by decide, Or.inl rfl, fun o => render_concat 'A' '#' 1 o, by decide⟩
      | exact ⟨'B', 'b', 1, by decide, Or.inr rfl, fun o => render_concat 'B' 'b' 1 o, by decide⟩
      | exact ⟨'B', '#', 0, by decide, Or.inl rfl, fun o => render_concat 'B' '#' 0 o, by decide⟩

/-- A table-formed name builds a valid note with the table's chroma and
the rendered octave, and its enharmonic respelling is again a
table-formed name at the same chroma and octave. -/
theorem table_roundtrip (c : ℤ) (h0 : 0 ≤ c) (h11 : c ≤ 11) (o : ℤ) (b : Bool) :
    (Note { name := some (eTable b c ++ intToStrS o) }).valid = true ∧
    (Note { name := some (eTable b c ++ intToStrS o) }).chroma = c ∧
    (Note { name := some (eTable b c ++ intToStrS o) }).octave = o ∧
    ∃ b2 : Bool, enharmonic (eTable b c ++ intToStrS o) = eTable b2 c ++ intToStrS o := by
  obtain ⟨L, a, k, hL, ha, heq, hc⟩ := eTable_shape b c h0 h11
  rw [heq o]
  have h := table_case L a k o hL ha (by omega) (by omega)
  refine ⟨h.1, ?_, h.2.2.1, ?_⟩
  · rw [h.2.1, hc]
  · rw [simplify_form (renderName L a k o)]
    rw [h.2.2.2, h.2.1, hc, h.2.2.1]
    exact ⟨_, rfl⟩

/-- Claim C9: for every name that builds a valid note, the note built
from the doubly-respelled name `enharmonic(enharmonic(x))` has the same
chroma and the same octave as the note built from `x`. -/
theorem claim_C9_enharmonic_involution (x : String)
    (hval : (Note { name := some x }).valid = true) :
    (Note { name := some (enharmonic (enharmonic x)) }).chroma =
      (Note { name := some x }).chroma ∧
    (Note { name := some (enharmonic (enharmonic x)) }).octave =
      (Note { name := some x }).octave := by
  have hchroma := note_valid_chroma { name := some x } hval
  have h0 : 0 ≤ (Note { name := some x }).chroma := by
    rw [hchroma]
    exact Int.emod_nonneg _ (by norm_num)
  have h11 : (Note { name := some x }).chroma ≤ 11 := by
    rw [hchroma]
    have := Int.emod_lt_of_pos
      (Letter.toIndex (Note { name := some x }).letter + (Note { name := some x }).alteration)
      (show (0 : ℤ) < 12 by norm_num)
    omega
  have he1 := simplify_form x
  obtain ⟨hv1, hc1, ho1, b2, he2⟩ :=
    table_roundtrip (Note { name := some x }).chroma h0 h11
      (Note { name := some x }).octave
      (decide (0 < (Note { name := some x }).alteration) == false)
  obtain ⟨hv2, hc2, ho2, _⟩ :=
    table_roundtrip (Note { name := some x }).chroma h0 h11
      (Note { name := some x }).octave b2
  rw [← he1] at he2
  rw [he2]
  exact ⟨hc2, ho2⟩

/-- Witness for claim C9 at the valid note name "C#4". -/
theorem claim_C9_witness :
    (Note { name := some "C#4" }).valid = true ∧
    ((Note { name := some (enharmonic (enharmonic "C#4")) }).chroma =
      (Note { name := some "C#4" }).chroma ∧
    (Note { name := some (enharmonic (enharmonic "C#4")) }).octave =
      (Note { name := some "C#4" }).octave) :=
  ⟨rfl, claim_C9_enharmonic_involution "C#4" rfl⟩

/-- Claim C10: `NoteDistance` never guards against an unconstructible
operand — it subtracts the requested field of whatever records the
constructor returns; the sentinel carries midi -1, frequency -1,
chroma 0 and octave -1, so the midi distance from any invalid init to a
note o is the plain number `o.midi + 1`. -/
theorem claim_C10_distance_sentinel (n o : NoteInit)
    (hn : (Note n).valid = false) (_ho : (Note o).valid = true) :
    NoteDistance n o NoteComparableProp.midi = ((Note o).midi : ℝ) + 1 ∧
    (∀ c : NoteComparableProp,
      NoteDistance n o c = getComparable (Note o) c - getComparable (Note n) c) ∧
    EmptyNote.midi = -1 ∧ EmptyNote.frequency = -1 ∧
    EmptyNote.chroma = 0 ∧ EmptyNote.octave = -1 := by
  refine ⟨?_, fun c => rfl, rfl, rfl, rfl, rfl⟩
  unfold NoteDistance
  rw [note_invalid_eq n hn]
  show ((Note o).midi : ℝ) - (((-1 : ℤ) : ℝ)) = ((Note o).midi : ℝ) + 1
  push_cast
  ring

/-- Witness for claim C10: the empty init is invalid, "C4" is valid, and
the midi distance between them is the valid note's midi plus one. -/
theorem claim_C10_witness :
    (Note {}).valid = false ∧ (Note { name := some "C4" }).valid = true ∧
    NoteDistance {} { name := some "C4" } NoteComparableProp.midi =
      ((Note { name := some "C4" }).midi : ℝ) + 1 :=
  ⟨rfl, rfl,
    (claim_C10_distance_sentinel {} { name := some "C4" } rfl rfl).1⟩
